import Mathlib

/-!
# Verification of PyUPS `ups/shipping_package.py`

A shallow embedding of the UPS shipping-package XML client:

* `Elem` models an lxml element tree (tag, text, children).  lxml
  distinguishes a `None` text from an empty string; navigation treats the
  two alike, and this model identifies them as `""`.
* Builder classmethods (`shipper_type`, `address_type`, `service_type`,
  `label_print_method_type`, `label_image_format_type`,
  `label_specification_type`, `shipment_confirm_request_type`,
  `shipment_accept_request_type`, `void_shipment_request_type`,
  `extract_digest`) become functions returning `Except UPSError _`,
  since builders can raise `MissingRequiredField`.
* `tostring` models `etree.tostring(_, pretty_print=True)`, `fromstring`
  models `objectify.fromstring` as an executable fueled recursive-descent
  parser, and the three `request` methods are modelled over a `Client`
  record whose transport `send_request` is an explicit function argument.
* A separate store-based model (`LNode`, `appendChild`, ...) captures
  lxml element identity: appending an element that already has a parent
  MOVES it to the new parent.  The class-level template elements
  (`RequestAction`, `RequestOption`, `TransactionReference`) are shared
  lxml objects, so this matters for the frame-effect claim.

Functions from `base.py` (`make_elements`, `look_for_error`, the base
URLs and the `MissingRequiredField` taxonomy) are not part of the given
sources; they are modelled from the spec, and are marked as such.
-/

set_option maxHeartbeats 2000000
set_option maxRecDepth 4000

/-- An lxml element: tag, text and list of child elements.  An absent
(`None`) text is identified with `""`. -/
inductive Elem where
  | mk (tag : String) (text : String) (children : List Elem)

/-- The tag of an element. -/
def Elem.tag : Elem → String
  | .mk t _ _ => t

/-- The text of an element (`""` models lxml's `None`). -/
def Elem.text : Elem → String
  | .mk _ x _ => x

/-- The children of an element. -/
def Elem.children : Elem → List Elem
  | .mk _ _ cs => cs

@[simp] theorem Elem.tag_mk (t x : String) (cs : List Elem) : (Elem.mk t x cs).tag = t := rfl

@[simp] theorem Elem.text_mk (t x : String) (cs : List Elem) : (Elem.mk t x cs).text = x := rfl

@[simp] theorem Elem.children_mk (t x : String) (cs : List Elem) :
    (Elem.mk t x cs).children = cs := rfl

/-- Structural induction for `Elem`, giving the hypothesis for every
member of the (nested) child list. -/
def elemInd {P : Elem → Prop} (h : ∀ t x cs, (∀ c ∈ cs, P c) → P (Elem.mk t x cs)) :
    ∀ e, P e
  | Elem.mk t x cs => h t x cs (fun c hc => elemInd h c)
termination_by e => sizeOf e
decreasing_by
  have := List.sizeOf_lt_of_mem hc
  simp only [Elem.mk.sizeOf_spec]
  omega

/-- The errors surfaced by this client: `MissingRequiredField` (raised by
builders), the carrier error raised by `look_for_error` (carrying the
original request text and the parsed response), an XML syntax error from
parsing a malformed transport response, and a failed `assert`. -/
inductive UPSError where
  | missingRequiredField (field : String)
  | carrierError (request_text : List Char) (response : Elem)
  | xmlSyntaxError
  | assertionFailed

/-- A keyword-argument value: either a plain string or an already-built
element. -/
inductive FieldValue where
  | str (s : String)
  | el (e : Elem)

/-- The child element contributed by one keyword argument: a string value
`v` for key `k` becomes a leaf `<k>v</k>`; a value that is already an
element becomes that child itself. -/
def kwargElem : String × FieldValue → Elem
  | (k, .str s) => Elem.mk k s []
  | (_, .el e) => e

/-- Whether a required name is present: supplied as a keyword, or as the
tag of one of the positional (already-built) elements. -/
def fieldPresent (args : List Elem) (kwargs : List (String × FieldValue)) (k : String) : Bool :=
  kwargs.any (fun kv => kv.1 == k) || args.any (fun e => e.tag == k)

/-- Modelled from the spec: `make_elements` is defined in `base.py`
(imported via `from base import BaseAPIClient`), which is not among the
given sources.  Per the spec, every builder "accepts positional/keyword
values, validates required names are present (failing with a descriptive
error naming the missing field), and emits a tree node with children
ordered as populated".  The first missing required name (in the
builder's order) is the one reported. -/
def make_elements (required : List String) (args : List Elem)
    (kwargs : List (String × FieldValue)) : Except UPSError (List Elem) :=
  match required.find? (fun k => !fieldPresent args kwargs k) with
  | some k => .error (.missingRequiredField k)
  | none => .ok (args ++ kwargs.map kwargElem)

/-- `ShipmentMixin.shipper_type`: no required fields, children from the
supplied values, wrapped in a `Shipper` element. -/
def shipper_type (args : List Elem) (kwargs : List (String × FieldValue)) :
    Except UPSError Elem :=
  match make_elements [] args kwargs with
  | .error err => .error err
  | .ok elements => .ok (Elem.mk "Shipper" "" elements)

/-- `ShipmentMixin.ship_to_type`. -/
def ship_to_type (args : List Elem) (kwargs : List (String × FieldValue)) :
    Except UPSError Elem :=
  match make_elements [] args kwargs with
  | .error err => .error err
  | .ok elements => .ok (Elem.mk "ShipTo" "" elements)

/-- `ShipmentMixin.ship_from_type`. -/
def ship_from_type (args : List Elem) (kwargs : List (String × FieldValue)) :
    Except UPSError Elem :=
  match make_elements [] args kwargs with
  | .error err => .error err
  | .ok elements => .ok (Elem.mk "ShipFrom" "" elements)

/-- The `dict((e.tag, e.text) for e in elements)` lookup used by
`address_type`: later elements overwrite earlier ones with the same tag,
so we look the key up in the reversed association list. -/
def elemDataLookup (elements : List Elem) (k : String) : Option String :=
  ((elements.map (fun e => (e.tag, e.text))).reverse).lookup k

/-- The warning `address_type` logs when a `StateProviceCode` is supplied
together with a `CountryCode` outside the US/CA allow-list. -/
def stateProvinceWarning : String := "StateProvinceCode are required only for CA and US"

/-- `ShipmentMixin.address_type`: requires `AddressLine1` and `City`;
warns (first component of the result) when both a `CountryCode` and a
`StateProviceCode` are supplied and the country is neither `US` nor
`CA`.  The warning list models the `cls.logger.warn` call. -/
def address_type (args : List Elem) (kwargs : List (String × FieldValue)) :
    Except UPSError (List String × Elem) :=
  match make_elements ["AddressLine1", "City"] args kwargs with
  | .error err => .error err
  | .ok elements =>
    let warnings :=
      match elemDataLookup elements "CountryCode", elemDataLookup elements "StateProviceCode" with
      | some cc, some _ => if cc = "US" ∨ cc = "CA" then [] else [stateProvinceWarning]
      | _, _ => []
    .ok (warnings, Elem.mk "Address" "" elements)

/-- `ShipmentMixin.ship_phone_type`: requires `Number`. -/
def ship_phone_type (args : List Elem) (kwargs : List (String × FieldValue)) :
    Except UPSError Elem :=
  match make_elements ["Number"] args kwargs with
  | .error err => .error err
  | .ok elements => .ok (Elem.mk "Phone" "" elements)

/-- `ShipmentMixin.service_type`: requires `Code`. -/
def service_type (args : List Elem) (kwargs : List (String × FieldValue)) :
    Except UPSError Elem :=
  match make_elements ["Code"] args kwargs with
  | .error err => .error err
  | .ok elements => .ok (Elem.mk "Service" "" elements)

/-- Python's `values = {'Code': 'GIF'}; values.update(kwargs)`: defaults
overridden by the supplied keys, then the remaining supplied keys. -/
def dictUpdate (defaults kwargs : List (String × FieldValue)) : List (String × FieldValue) :=
  defaults.map (fun kv => (kv.1, (kwargs.lookup kv.1).getD kv.2)) ++
    kwargs.filter (fun kv => !(defaults.any (fun dv => dv.1 == kv.1)))

/-- `ShipmentConfirm.label_print_method_type`: `Code` defaults to `GIF`;
a nonempty positional list must have length `2 - len(kwargs)` (the
`assert` in the source). -/
def label_print_method_type (args : List Elem) (kwargs : List (String × FieldValue)) :
    Except UPSError Elem :=
  let values := dictUpdate [("Code", FieldValue.str "GIF")] kwargs
  if args.length ≠ 0 ∧ args.length ≠ 2 - kwargs.length then .error .assertionFailed
  else
    match make_elements ["Code"] args values with
    | .error err => .error err
    | .ok elements => .ok (Elem.mk "LabelPrintMethod" "" elements)

/-- `ShipmentConfirm.label_image_format_type`: same shape as
`label_print_method_type` with tag `LabelImageFormat`. -/
def label_image_format_type (args : List Elem) (kwargs : List (String × FieldValue)) :
    Except UPSError Elem :=
  let values := dictUpdate [("Code", FieldValue.str "GIF")] kwargs
  if args.length ≠ 0 ∧ args.length ≠ 2 - kwargs.length then .error .assertionFailed
  else
    match make_elements ["Code"] args values with
    | .error err => .error err
    | .ok elements => .ok (Elem.mk "LabelImageFormat" "" elements)

/-- `ShipmentConfirm.label_specification_type`: requires
`LabelPrintMethod`. -/
def label_specification_type (args : List Elem) (kwargs : List (String × FieldValue)) :
    Except UPSError Elem :=
  match make_elements ["LabelPrintMethod"] args kwargs with
  | .error err => .error err
  | .ok elements => .ok (Elem.mk "LabelSpecification" "" elements)

namespace ShipmentConfirm

/-- `ShipmentConfirm.RequestAction = E.RequestAction('ShipConfirm')`. -/
def RequestAction : Elem := Elem.mk "RequestAction" "ShipConfirm" []

/-- `ShipmentConfirm.RequestOption = E.RequestOption('nonvalidate')`. -/
def RequestOption : Elem := Elem.mk "RequestOption" "nonvalidate" []

/-- `ShipmentConfirm.TransactionReference`. -/
def TransactionReference : Elem :=
  Elem.mk "TransactionReference" "" [Elem.mk "CustomerContext" "unspecified" []]

end ShipmentConfirm

/-- The required fields of `shipment_confirm_request_type`. -/
def confirmRequired : List String :=
  ["Shipper", "ShipTo", "ShipFrom", "Service", "PaymentInformation"]

/-- `ShipmentConfirm.shipment_confirm_request_type`: builds the
`/ShipmentConfirmRequest` document.  The `Request` header is assembled
from the class-level templates; when no `LabelSpecification` keyword is
given a default one (GIF print method, GIF image format) is built;
otherwise the supplied one is popped out of the keyword dict.  The five
required fields are then checked by `make_elements` and the result
wrapped as `Request`, `Shipment`, `LabelSpecification`.  (A bare-string
`LabelSpecification` keyword is not produced by this API's own builders;
we model it as a text-only element — no claim depends on that corner.) -/
def shipment_confirm_request_type (args : List Elem)
    (kwargs : List (String × FieldValue)) : Except UPSError Elem :=
  let request := Elem.mk "Request" ""
    [ShipmentConfirm.RequestAction, ShipmentConfirm.RequestOption,
      ShipmentConfirm.TransactionReference]
  let labelAndKwargs : Except UPSError (Elem × List (String × FieldValue)) :=
    match kwargs.lookup "LabelSpecification" with
    | none =>
      match label_print_method_type [] [] with
      | .error err => .error err
      | .ok lpm =>
        match label_image_format_type [] [] with
        | .error err => .error err
        | .ok lif =>
          match label_specification_type [lpm, lif] [] with
          | .error err => .error err
          | .ok ls => .ok (ls, kwargs)
    | some (.el e) => .ok (e, kwargs.eraseP (fun kv => kv.1 == "LabelSpecification"))
    | some (.str s) =>
      .ok (Elem.mk "LabelSpecification" s [], kwargs.eraseP (fun kv => kv.1 == "LabelSpecification"))
  match labelAndKwargs with
  | .error err => .error err
  | .ok (label_specification, kwargs) =>
    match make_elements confirmRequired args kwargs with
    | .error err => .error err
    | .ok elements =>
      let shipment_element := Elem.mk "Shipment" "" elements
      .ok (Elem.mk "ShipmentConfirmRequest" "" [request, shipment_element, label_specification])

namespace ShipmentAccept

/-- `ShipmentAccept.RequestAction = E.RequestAction('ShipAccept')`. -/
def RequestAction : Elem := Elem.mk "RequestAction" "ShipAccept" []

/-- `ShipmentAccept.RequestOption = E.RequestOption('nonvalidate')`. -/
def RequestOption : Elem := Elem.mk "RequestOption" "nonvalidate" []

/-- `ShipmentAccept.TransactionReference`. -/
def TransactionReference : Elem :=
  Elem.mk "TransactionReference" "" [Elem.mk "CustomerContext" "unspecified" []]

end ShipmentAccept

/-- `ShipmentAccept.shipment_accept_request_type`: a `Request` header from
the class templates plus a `ShipmentDigest` child holding the digest
verbatim. -/
def shipment_accept_request_type (digest : String) : Elem :=
  let request := Elem.mk "Request" ""
    [ShipmentAccept.RequestAction, ShipmentAccept.RequestOption,
      ShipmentAccept.TransactionReference]
  let digest_element := Elem.mk "ShipmentDigest" digest []
  Elem.mk "ShipmentAcceptRequest" "" [request, digest_element]

namespace ShipmentVoid

/-- `ShipmentVoid.RequestAction = E.RequestAction('Void')`. -/
def RequestAction : Elem := Elem.mk "RequestAction" "Void" []

/-- `ShipmentVoid.RequestOption = E.RequestOption('')`. -/
def RequestOption : Elem := Elem.mk "RequestOption" "" []

/-- `ShipmentVoid.TransactionReference`. -/
def TransactionReference : Elem :=
  Elem.mk "TransactionReference" "" [Elem.mk "CustomerContext" "unspecified" []]

end ShipmentVoid

/-- `ShipmentVoid.void_shipment_request_type`. -/
def void_shipment_request_type (shipment_id : String) (tracking_ids : List String) : Elem :=
  let request := Elem.mk "Request" ""
    [ShipmentVoid.RequestAction, ShipmentVoid.RequestOption, ShipmentVoid.TransactionReference]
  let expanded := Elem.mk "ShipmentIdentificationNumber" shipment_id [] ::
    tracking_ids.map (fun packet => Elem.mk "TrackingNumber" packet [])
  Elem.mk "VoidShipmentRequest" "" [request, Elem.mk "ExpandedVoidShipment" "" expanded]

/-- `ShipmentConfirm.extract_digest`: `response.ShipmentDigest.pyval` -
the text of the first `ShipmentDigest` child (objectify attribute access
raises on a missing child, modelled as `none`). -/
def extract_digest (response : Elem) : Option String :=
  (response.children.find? (fun c => c.tag == "ShipmentDigest")).map (fun c => c.text)

/-! ## Serialization: `etree.tostring(_, pretty_print=True)` -/

/-- The two-space pretty-printing indentation at nesting depth `n`. -/
def indentChars (n : Nat) : List Char := List.replicate (2*n) ' '

mutual

/-- Pretty-printed serialization of one element at depth `ind`, without
leading indentation or trailing newline (the parent adds those): an
empty leaf is self-closed, a text leaf is printed on one line, children
are each printed on their own indented line. -/
def serializeE : Elem → Nat → List Char
  | Elem.mk t x cs, ind =>
    match cs with
    | [] =>
      if x.data = [] then
        '<' :: (t.data ++ '/' :: '>' :: [])
      else
        '<' :: (t.data ++ '>' :: (x.data ++ '<' :: '/' :: (t.data ++ ['>'])))
    | _ :: _ =>
      '<' :: (t.data ++ '>' ::
        (serializeL cs (ind+1) ++ '\n' :: (indentChars ind ++ '<' :: '/' :: (t.data ++ ['>']))))

/-- Serialization of a child list: each child on its own line, indented. -/
def serializeL : List Elem → Nat → List Char
  | [], _ => []
  | c :: cs, ind => ('\n' :: indentChars ind) ++ serializeE c ind ++ serializeL cs ind

end

/-- `etree.tostring(element, pretty_print=True)`: the document text, with
the trailing newline the pretty printer appends (and no XML declaration:
the callers prepend their own). -/
def tostring (e : Elem) : List Char := serializeE e 0 ++ ['\n']

/-- The XML declaration each `request` method prepends to each of the two
documents of the payload. -/
def xmlDecl : List Char := ('<' :: '?' :: "xml version=".data) ++ '"' :: "1.0".data ++
  '"' :: " encoding=".data ++ '"' :: "UTF-8".data ++ '"' :: ' ' :: '?' :: '>' :: []

/-- The payload every `request` method sends:
`'\n'.join([decl, tostring(access_request), decl, tostring(business)])`. -/
def mkFullRequest (access doc : Elem) : List Char :=
  xmlDecl ++ '\n' :: (tostring access ++ '\n' :: (xmlDecl ++ '\n' :: tostring doc))

/-! ## Parsing: `objectify.fromstring` -/

/-- XML whitespace. -/
def isWsChar (c : Char) : Bool := c == ' ' || c == '\n' || c == '\t' || c == '\r'

/-- Characters allowed in the element names this client emits. -/
def isNameChar (c : Char) : Bool := c.isAlphanum

/-- Drop leading whitespace. -/
def skipWs (cs : List Char) : List Char := cs.dropWhile isWsChar

/-- Read a nonempty element name. -/
def parseName (cs : List Char) : Option (List Char × List Char) :=
  let n := cs.takeWhile isNameChar
  if n.isEmpty then none else some (n, cs.dropWhile isNameChar)

/-- Read `name>` for the closing tag `name` and return what follows. -/
def parseClosing (name : List Char) (cs : List Char) : Option (List Char) :=
  match parseName cs with
  | some (name2, r) =>
    if name2 = name then
      match r with
      | '>' :: r2 => some r2
      | _ => none
    else none
  | none => none

/-- Everything except the `<` that terminates a text run. -/
def notLtChar (c : Char) : Bool := !(c == '<')

/-- Does the input begin with a closing tag marker `</`? -/
def startsClose : List Char → Bool
  | a :: b :: _ => a == '<' && b == '/'
  | _ => false

/-- Fueled recursive-descent parser for a sequence of sibling elements.
It stops (successfully) at the end of input or in front of a closing
tag; only whitespace may separate siblings, and an element body is
either raw text or a list of child elements. -/
def parseNodes : Nat → List Char → Option (List Elem × List Char)
  | 0, _ => none
  | fuel+1, cs0 =>
    let cs := skipWs cs0
    if cs.isEmpty then some ([], [])
    else if startsClose cs then some ([], cs)
    else
      match cs with
      | '<' :: r1 =>
        match parseName r1 with
        | none => none
        | some (name, r2) =>
          match r2 with
          | '/' :: '>' :: r3 =>
            match parseNodes fuel r3 with
            | some (es, r4) => some (Elem.mk (String.mk name) "" [] :: es, r4)
            | none => none
          | '>' :: r3 =>
            let raw := r3.takeWhile notLtChar
            let r4 := r3.dropWhile notLtChar
            if startsClose r4 then
              match parseClosing name (r4.drop 2) with
              | some r6 =>
                match parseNodes fuel r6 with
                | some (es, r7) => some (Elem.mk (String.mk name) (String.mk raw) [] :: es, r7)
                | none => none
              | none => none
            else if r4.isEmpty then none
            else if raw.all isWsChar then
              match parseNodes fuel r4 with
              | some (kids, r5) =>
                let r5 := skipWs r5
                if startsClose r5 then
                  match parseClosing name (r5.drop 2) with
                  | some r7 =>
                    match parseNodes fuel r7 with
                    | some (es, r8) => some (Elem.mk (String.mk name) "" kids :: es, r8)
                    | none => none
                  | none => none
                else none
              | none => none
            else none
          | _ => none
      | _ => none

/-- `objectify.fromstring`: parse a document with a single root element
(anything after it is a syntax error). -/
def fromstring (cs : List Char) : Option Elem :=
  match parseNodes (cs.length + 2) cs with
  | some ([e], rest) => if rest.isEmpty then some e else none
  | _ => none

/-! ## The three clients and their `request` methods -/

/-- Modelled from the spec: `BaseAPIClient.base_url` lives in `base.py`,
which is not among the given sources.  Per the spec there are two base
endpoints, sandbox and production, chosen by a boolean flag set at
construction. -/
def base_url (sandbox : Bool) : String :=
  if sandbox then "https://sandbox.ups.invalid/base" else "https://production.ups.invalid/base"

/-- A client as constructed by `BaseAPIClient.__init__`: the credentials
document, the sandbox and `return_xml` flags, and the external transport
`send_request(url, data) -> bytes` (an explicit function here). -/
structure Client where
  access_request : Elem
  sandbox : Bool
  return_xml : Bool
  send_request : String → List Char → List Char

mutual

/-- Whether the parsed response embeds a carrier fault node. -/
def containsErrorE : Elem → Bool
  | Elem.mk t _ cs => t == "Error" || containsErrorL cs

/-- `containsErrorE` over a list of elements. -/
def containsErrorL : List Elem → Bool
  | [] => false
  | c :: cs => containsErrorE c || containsErrorL cs

end

/-- Modelled from the spec: `look_for_error` lives in `base.py`, which is
not among the given sources.  Per the spec it scans the parsed response
for an embedded error/fault node and raises `CarrierError` carrying the
original request and response if one is found. -/
def look_for_error (response : Elem) (full_request : List Char) : Except UPSError Unit :=
  if containsErrorE response then .error (.carrierError full_request response) else .ok ()

/-- The value a `request` method returns: the parsed response tree, or a
(request text, response) pair when `return_xml` is set. -/
inductive RequestOutcome where
  | pair (request_text : List Char) (response : Elem)
  | tree (response : Elem)

/-- The shared body of the three `request` methods: serialize the
two-document payload, send it, parse the returned bytes, raise on an
embedded carrier error, and return the response (with the request text
when `return_xml` is set). -/
def requestBody (c : Client) (url : String) (doc : Elem) : Except UPSError RequestOutcome :=
  let full_request := mkFullRequest c.access_request doc
  let result := c.send_request url full_request
  match fromstring result with
  | none => .error .xmlSyntaxError
  | some response =>
    match look_for_error response full_request with
    | .error err => .error err
    | .ok () =>
      if c.return_xml then .ok (.pair full_request response) else .ok (.tree response)

/-- `ShipmentConfirm.url`. -/
def ShipmentConfirm.url (c : Client) : String := base_url c.sandbox ++ "/" ++ "ShipConfirm"

/-- `ShipmentConfirm.request`. -/
def ShipmentConfirm.request (c : Client) (shipment_confirm_request : Elem) :
    Except UPSError RequestOutcome :=
  requestBody c (ShipmentConfirm.url c) shipment_confirm_request

/-- `ShipmentAccept.url`. -/
def ShipmentAccept.url (c : Client) : String := base_url c.sandbox ++ "/" ++ "ShipAccept"

/-- `ShipmentAccept.request`. -/
def ShipmentAccept.request (c : Client) (shipment_accept_request : Elem) :
    Except UPSError RequestOutcome :=
  requestBody c (ShipmentAccept.url c) shipment_accept_request

/-- `ShipmentVoid.url`. -/
def ShipmentVoid.url (c : Client) : String := base_url c.sandbox ++ "/" ++ "Void"

/-- `ShipmentVoid.request`. -/
def ShipmentVoid.request (c : Client) (shipment_void_request : Elem) :
    Except UPSError RequestOutcome :=
  requestBody c (ShipmentVoid.url c) shipment_void_request

/-! ## Well-formedness of the element trees this client builds -/

/-- A text character the serializer emits verbatim exactly as lxml would:
printable ASCII (or newline/tab) and none of the characters lxml
escapes. -/
def safeTextChar (c : Char) : Bool :=
  !(c == '<') && !(c == '&') && !(c == '>') && c.toNat < 128

mutual

/-- Well-formed elements: nonempty alphanumeric tag, safe text, no mixed
content (text and children together), well-formed children. -/
def wfE : Elem → Bool
  | Elem.mk t x cs =>
    !t.data.isEmpty && t.data.all isNameChar && x.data.all safeTextChar &&
      (x.data.isEmpty || cs.isEmpty) && wfL cs

/-- `wfE` over a list of elements. -/
def wfL : List Elem → Bool
  | [] => true
  | c :: cs => wfE c && wfL cs

end

/-- Not a question mark (`xmlDecl` detection). -/
def notQmChar (c : Char) : Bool := !(c == '?')

mutual

/-- No `?` in any text: makes a serialized document free of `?`, so it
cannot contain another XML declaration. -/
def noQmE : Elem → Bool
  | Elem.mk _ x cs => x.data.all notQmChar && noQmL cs

/-- `noQmE` over a list of elements. -/
def noQmL : List Elem → Bool
  | [] => true
  | c :: cs => noQmE c && noQmL cs

end

mutual

/-- Parser fuel needed for one element. -/
def sizeE : Elem → Nat
  | Elem.mk _ _ cs => 2 + sizeL cs

/-- Parser fuel needed for a list of elements. -/
def sizeL : List Elem → Nat
  | [] => 0
  | c :: cs => sizeE c + sizeL cs

end

/-! ## Element identity: lxml's move-on-append semantics

lxml elements have at most one parent; appending an element that already
has a parent MOVES it (detaches it from the old parent).  The
class-level template elements are shared lxml objects, so a builder call
that appends them reparents them.  This store-based model makes that
observable. -/

/-- A node in the store: an lxml element with an identity. -/
structure LNode where
  tag : String
  text : String
  childIds : List Nat
  parent : Option Nat

/-- The store: node ids are list indices. -/
abbrev LStore := List LNode

/-- Replace the node at index `i` by `f` of it. -/
def storeModify (s : LStore) (i : Nat) (f : LNode → LNode) : LStore :=
  s.enum.map (fun ni => if ni.1 = i then f ni.2 else ni.2)

/-- Detach node `c` from its current parent, if any: lxml's first half of
moving a node. -/
def detachNode (s : LStore) (c : Nat) : LStore :=
  match (s.get? c).bind (fun n => n.parent) with
  | none => s
  | some p => storeModify s p (fun n => { n with childIds := n.childIds.filter (fun i => i ≠ c) })

/-- `parent.append(child)` in lxml: detach the child from its old parent,
then attach it under the new one. -/
def appendChild (s : LStore) (p c : Nat) : LStore :=
  let s := detachNode s c
  let s := storeModify s c (fun n => { n with parent := some p })
  storeModify s p (fun n => { n with childIds := n.childIds ++ [c] })

/-- `lxml.builder.E(tag, *children)` with a fresh result node: create the
node, then `append` each child in turn (moving any child that already
has a parent). -/
def buildE (s : LStore) (tag : String) (text : String) (children : List Nat) : LStore × Nat :=
  let id := s.length
  let s := s ++ [⟨tag, text, [], none⟩]
  (children.foldl (fun st c => appendChild st id c) s, id)

/-- The store as it stands after the `ShipmentAccept` class body ran:
the three class-level template elements (`CustomerContext` is built
first, then moved into `TransactionReference`). -/
def acceptStore0 : LStore :=
  let (s, _) := buildE [] "RequestAction" "ShipAccept" []
  let (s, _) := buildE s "RequestOption" "nonvalidate" []
  let (s, cc) := buildE s "CustomerContext" "unspecified" []
  let (s, _) := buildE s "TransactionReference" "" [cc]
  s

/-- The ids of the `ShipmentAccept` templates in `acceptStore0`. -/
def acceptRequestActionId : Nat := 0

/-- Id of the `RequestOption` template. -/
def acceptRequestOptionId : Nat := 1

/-- Id of the `TransactionReference` template. -/
def acceptTransactionReferenceId : Nat := 3

/-- `ShipmentAccept.shipment_accept_request_type` over the store model:
`E.Request(cls.RequestAction, cls.RequestOption,
cls.TransactionReference)` appends the three shared templates to a
fresh `Request` node, then the digest and root elements are built.
Returns the store, the root id and the `Request` id. -/
def accept_request_heap (s : LStore) (digest : String) : LStore × Nat × Nat :=
  let (s, requestId) := buildE s "Request" ""
    [acceptRequestActionId, acceptRequestOptionId, acceptTransactionReferenceId]
  let (s, digestId) := buildE s "ShipmentDigest" digest []
  let (s, rootId) := buildE s "ShipmentAcceptRequest" "" [requestId, digestId]
  (s, rootId, requestId)

/-- Convenience projections on a store. -/
def nodeParent (s : LStore) (i : Nat) : Option (Option Nat) := (s.get? i).map (fun n => n.parent)

/-- The child list of node `i`, or `none` if `i` is not allocated. -/
def nodeChildIds (s : LStore) (i : Nat) : Option (List Nat) := (s.get? i).map (fun n => n.childIds)

/-! ## Helper lemmas -/

theorem stringMkData (s : String) : String.mk s.data = s := by cases s; rfl

theorem string_eq_empty_of_data {s : String} (h : s.data = []) : s = "" := by
  cases s
  simp only [String.data] at h
  subst h
  rfl

theorem takeWhile_dropWhile_append {α : Type} {p : α → Bool} :
    ∀ {xs : List α}, (∀ c ∈ xs, p c = true) → ∀ {y : α}, p y = false → ∀ (ys : List α),
      (xs ++ y :: ys).takeWhile p = xs ∧ (xs ++ y :: ys).dropWhile p = y :: ys := by
  intro xs
  induction xs with
  | nil =>
    intro _ y hy ys
    constructor
    · simp [List.takeWhile_cons, hy]
    · simp [List.dropWhile_cons, hy]
  | cons a l ih =>
    intro h y hy ys
    have ha : p a = true := h a (by simp)
    have hl : ∀ c ∈ l, p c = true := fun c hc => h c (by simp [hc])
    obtain ⟨h1, h2⟩ := ih hl hy ys
    constructor
    · simp [List.takeWhile_cons, ha, h1]
    · simp [List.dropWhile_cons, ha, h2]

theorem skipWs_ws_append {w : List Char} (hw : ∀ c ∈ w, isWsChar c = true) (cs : List Char) :
    skipWs (w ++ cs) = skipWs cs := by
  induction w with
  | nil => rfl
  | cons a l ih =>
    have ha : isWsChar a = true := hw a (by simp)
    have hl : ∀ c ∈ l, isWsChar c = true := fun c hc => hw c (by simp [hc])
    simp only [List.cons_append, skipWs, List.dropWhile_cons, ha, if_true]
    exact ih hl

theorem skipWs_not_ws {c : Char} (h : isWsChar c = false) (cs : List Char) :
    skipWs (c :: cs) = c :: cs := by
  simp [skipWs, List.dropWhile_cons, h]

@[simp] theorem skipWs_nil : skipWs [] = [] := rfl

theorem ne_of_nameChar {c d : Char} (h : isNameChar c = true) (hd : isNameChar d = false) :
    c ≠ d := by
  intro heq
  rw [heq, hd] at h
  exact Bool.noConfusion h

theorem wsChar_false_of_nameChar {c : Char} (h : isNameChar c = true) : isWsChar c = false := by
  cases hc : isWsChar c with
  | false => rfl
  | true =>
    exfalso
    unfold isWsChar at hc
    simp only [Bool.or_eq_true, beq_iff_eq] at hc
    rcases hc with ((h1 | h1) | h1) | h1 <;> subst h1 <;> exact absurd h (by decide)

theorem notLt_of_safeTextChar {c : Char} (h : safeTextChar c = true) : notLtChar c = true := by
  unfold safeTextChar at h
  simp only [Bool.and_eq_true] at h
  exact h.1.1.1

theorem notLt_of_wsChar {c : Char} (h : isWsChar c = true) : notLtChar c = true := by
  unfold isWsChar at h
  simp only [Bool.or_eq_true, beq_iff_eq] at h
  rcases h with ((h1 | h1) | h1) | h1 <;> subst h1 <;> decide

theorem parseName_spec {n : List Char} (hn : ∀ c ∈ n, isNameChar c = true) (hne : n ≠ [])
    {b : Char} (hb : isNameChar b = false) (rest : List Char) :
    parseName (n ++ b :: rest) = some (n, b :: rest) := by
  obtain ⟨h1, h2⟩ := takeWhile_dropWhile_append hn hb rest
  simp [parseName, h1, h2, hne]

theorem parseClosing_spec {n : List Char} (hn : ∀ c ∈ n, isNameChar c = true) (hne : n ≠ [])
    (rest : List Char) : parseClosing n (n ++ '>' :: rest) = some rest := by
  rw [parseClosing, parseName_spec hn hne (by decide) rest]
  simp

theorem startsClose_cons_cons (a b : Char) (l : List Char) :
    startsClose (a :: b :: l) = (a == '<' && b == '/') := rfl

theorem startsClose_of_name {h : Char} (hh : isNameChar h = true) (tl : List Char) :
    startsClose ('<' :: h :: tl) = false := by
  rw [startsClose_cons_cons]
  have : h ≠ '/' := ne_of_nameChar hh (by decide)
  simp [this]

theorem indentChars_ws : ∀ c ∈ indentChars n, isWsChar c = true := by
  intro c hc
  rw [indentChars, List.mem_replicate] at hc
  rw [hc.2]
  decide

/-- `serializeE` always yields `<` followed by the tag. -/
theorem serializeE_shape (t x : String) (cs : List Elem) (ind : Nat) :
    ∃ r, serializeE (Elem.mk t x cs) ind = '<' :: (t.data ++ r) := by
  cases cs with
  | nil =>
    by_cases hx : x.data = []
    · exact ⟨'/' :: '>' :: [], by rw [serializeE, if_pos hx]⟩
    · exact ⟨'>' :: (x.data ++ '<' :: '/' :: (t.data ++ ['>'])), by rw [serializeE, if_neg hx]⟩
  | cons c l =>
    exact ⟨'>' :: (serializeL (c :: l) (ind+1) ++ '\n' ::
      (indentChars ind ++ '<' :: '/' :: (t.data ++ ['>']))), by rw [serializeE]⟩

theorem wfL_iff : ∀ cs : List Elem, wfL cs = true ↔ ∀ c ∈ cs, wfE c = true := by
  intro cs
  induction cs with
  | nil => simp [wfL]
  | cons c l ih =>
    rw [wfL, Bool.and_eq_true, ih]
    constructor
    · rintro ⟨h1, h2⟩ d hd
      rcases List.mem_cons.mp hd with h | h
      · rw [h]; exact h1
      · exact h2 d h
    · intro h
      exact ⟨h c (by simp), fun d hd => h d (by simp [hd])⟩

theorem noQmL_iff : ∀ cs : List Elem, noQmL cs = true ↔ ∀ c ∈ cs, noQmE c = true := by
  intro cs
  induction cs with
  | nil => simp [noQmL]
  | cons c l ih =>
    rw [noQmL, Bool.and_eq_true, ih]
    constructor
    · rintro ⟨h1, h2⟩ d hd
      rcases List.mem_cons.mp hd with h | h
      · rw [h]; exact h1
      · exact h2 d h
    · intro h
      exact ⟨h c (by simp), fun d hd => h d (by simp [hd])⟩

theorem sizeE_pos (e : Elem) : 2 ≤ sizeE e := by
  cases e
  rw [sizeE]
  omega

theorem wfE_parts {t x : String} {cs : List Elem} (h : wfE (Elem.mk t x cs) = true) :
    t.data ≠ [] ∧ (∀ c ∈ t.data, isNameChar c = true) ∧
      (∀ c ∈ x.data, safeTextChar c = true) ∧ (x.data = [] ∨ cs = []) ∧ wfL cs = true := by
  rw [wfE] at h
  simp only [Bool.and_eq_true] at h
  obtain ⟨⟨⟨⟨h1, h2⟩, h3⟩, h4⟩, h5⟩ := h
  refine ⟨?_, ?_, ?_, ?_, h5⟩
  · intro hne
    rw [hne] at h1
    exact Bool.noConfusion h1
  · exact fun c hc => (List.all_eq_true.mp h2) c hc
  · exact fun c hc => (List.all_eq_true.mp h3) c hc
  · have h4' : x.data.isEmpty = true ∨ cs.isEmpty = true := by
      rcases hx : x.data.isEmpty with _ | _
      · rw [hx] at h4
        exact Or.inr (by simpa using h4)
      · exact Or.inl rfl
    rcases h4' with h | h
    · exact Or.inl (List.isEmpty_iff.mp h)
    · exact Or.inr (List.isEmpty_iff.mp h)

theorem parseNodes_leading_ws (f : Nat) {w : List Char} (hw : ∀ c ∈ w, isWsChar c = true)
    (cs : List Char) : parseNodes f (w ++ cs) = parseNodes f cs := by
  cases f with
  | zero => rfl
  | succ f =>
    simp only [parseNodes]
    rw [skipWs_ws_append hw]

theorem parseNodes_at_rest {fuel : Nat} (hf : 1 ≤ fuel) {rest : List Char}
    (hrest : skipWs rest = [] ∨ ∃ r, skipWs rest = '<' :: '/' :: r) :
    parseNodes fuel rest = some ([], skipWs rest) := by
  obtain ⟨f, rfl⟩ : ∃ f, fuel = f + 1 := ⟨fuel - 1, by omega⟩
  simp only [parseNodes]
  rcases hrest with h | ⟨r, h⟩
  · rw [h]
    rfl
  · rw [h]
    rfl

theorem parseNodes_step_selfclose (f : Nat) {nm : List Char}
    (hn : ∀ c ∈ nm, isNameChar c = true) (hne : nm ≠ []) (Z : List Char)
    {es : List Elem} {r : List Char} (hZ : parseNodes f Z = some (es, r)) :
    parseNodes (f+1) ('<' :: (nm ++ '/' :: '>' :: Z)) =
      some (Elem.mk (String.mk nm) "" [] :: es, r) := by
  obtain ⟨n0, ntl, rfl⟩ : ∃ n0 ntl, nm = n0 :: ntl := by
    cases nm with
    | nil => exact absurd rfl hne
    | cons a b => exact ⟨a, b, rfl⟩
  have hn0 : isNameChar n0 = true := hn n0 (by simp)
  simp only [parseNodes]
  rw [skipWs_not_ws (by decide)]
  rw [List.cons_append]
  rw [startsClose_of_name hn0]
  simp only [List.isEmpty_cons, Bool.false_eq_true, if_false]
  rw [← List.cons_append]
  rw [parseName_spec hn hne (by decide) ('>' :: Z)]
  simp only [hZ]

theorem parseNodes_step_textleaf (f : Nat) {nm : List Char}
    (hn : ∀ c ∈ nm, isNameChar c = true) (hne : nm ≠ [])
    {xd : List Char} (hsafe : ∀ c ∈ xd, safeTextChar c = true) (Z : List Char)
    {es : List Elem} {r : List Char} (hZ : parseNodes f Z = some (es, r)) :
    parseNodes (f+1) ('<' :: (nm ++ '>' :: (xd ++ '<' :: '/' :: (nm ++ '>' :: Z)))) =
      some (Elem.mk (String.mk nm) (String.mk xd) [] :: es, r) := by
  obtain ⟨n0, ntl, rfl⟩ : ∃ n0 ntl, nm = n0 :: ntl := by
    cases nm with
    | nil => exact absurd rfl hne
    | cons a b => exact ⟨a, b, rfl⟩
  have hn0 : isNameChar n0 = true := hn n0 (by simp)
  have hxlt : ∀ c ∈ xd, notLtChar c = true := fun c hc => notLt_of_safeTextChar (hsafe c hc)
  obtain ⟨htw, hdw⟩ := takeWhile_dropWhile_append hxlt
    (show notLtChar '<' = false from by decide) ('/' :: ((n0 :: ntl) ++ '>' :: Z))
  simp only [parseNodes]
  rw [skipWs_not_ws (by decide)]
  rw [List.cons_append]
  rw [startsClose_of_name hn0]
  simp only [List.isEmpty_cons, Bool.false_eq_true, if_false]
  rw [← List.cons_append]
  rw [parseName_spec hn hne (by decide) (xd ++ '<' :: '/' :: ((n0 :: ntl) ++ '>' :: Z))]
  simp only [htw, hdw]
  simp only [startsClose_cons_cons, List.drop, parseClosing_spec hn hne Z, hZ]
  simp

theorem parseNodes_step_node (f : Nat) {nm : List Char}
    (hn : ∀ c ∈ nm, isNameChar c = true) (hne : nm ≠ [])
    {sep : List Char} (hsep : ∀ c ∈ sep, isWsChar c = true)
    {h1 : Char} {tl1 : List Char} (hh1 : isNameChar h1 = true)
    {kids es : List Elem} {mid Z r : List Char}
    (hbody : parseNodes f ('<' :: h1 :: tl1) = some (kids, mid))
    (hmid : skipWs mid = '<' :: '/' :: (nm ++ '>' :: Z))
    (hZ : parseNodes f Z = some (es, r)) :
    parseNodes (f+1) ('<' :: (nm ++ '>' :: (sep ++ '<' :: h1 :: tl1))) =
      some (Elem.mk (String.mk nm) "" kids :: es, r) := by
  obtain ⟨n0, ntl, rfl⟩ : ∃ n0 ntl, nm = n0 :: ntl := by
    cases nm with
    | nil => exact absurd rfl hne
    | cons a b => exact ⟨a, b, rfl⟩
  have hn0 : isNameChar n0 = true := hn n0 (by simp)
  have hseplt : ∀ c ∈ sep, notLtChar c = true := fun c hc => notLt_of_wsChar (hsep c hc)
  obtain ⟨htw, hdw⟩ := takeWhile_dropWhile_append hseplt
    (show notLtChar '<' = false from by decide) (h1 :: tl1)
  simp only [parseNodes]
  rw [skipWs_not_ws (by decide)]
  rw [List.cons_append]
  rw [startsClose_of_name hn0]
  simp only [List.isEmpty_cons, Bool.false_eq_true, if_false]
  rw [← List.cons_append]
  rw [parseName_spec hn hne (by decide) (sep ++ '<' :: h1 :: tl1)]
  simp only [htw, hdw]
  rw [startsClose_of_name hh1]
  simp only [List.isEmpty_cons, Bool.false_eq_true, if_false, List.all_eq_true.mpr hsep,
    if_true, hbody]
  rw [hmid]
  simp only [startsClose_cons_cons, List.drop, parseClosing_spec hn hne Z, hZ]
  simp

theorem parseNodes_serializeL :
    ∀ n es ind rest fuel, sizeL es ≤ n → wfL es = true → sizeL es + 1 ≤ fuel →
      (skipWs rest = [] ∨ ∃ r, skipWs rest = '<' :: '/' :: r) →
      parseNodes fuel (serializeL es ind ++ rest) = some (es, skipWs rest) := by
  intro n
  induction n with
  | zero =>
    intro es ind rest fuel hsize hwf hfuel hrest
    cases es with
    | nil =>
      rw [serializeL, List.nil_append]
      exact parseNodes_at_rest (by omega) hrest
    | cons e es2 =>
      exfalso
      have := sizeE_pos e
      rw [sizeL] at hsize
      omega
  | succ n ih =>
    intro es ind rest fuel hsize hwf hfuel hrest
    cases es with
    | nil =>
      rw [serializeL, List.nil_append]
      exact parseNodes_at_rest (by omega) hrest
    | cons e es2 =>
      obtain ⟨t, x, cs⟩ := e
      rw [wfL, Bool.and_eq_true] at hwf
      obtain ⟨hwfe, hwfl2⟩ := hwf
      obtain ⟨htne, htname, hxsafe, hmix, hwfcs⟩ := wfE_parts hwfe
      obtain ⟨f, rfl⟩ : ∃ f, fuel = f + 1 := ⟨fuel - 1, by omega⟩
      rw [sizeL, sizeE] at hsize hfuel
      have hW : ∀ c ∈ ('\n' :: indentChars ind), isWsChar c = true := by
        intro c hc
        rcases List.mem_cons.mp hc with h | h
        · rw [h]; decide
        · exact indentChars_ws c h
      have hcont : parseNodes f (serializeL es2 ind ++ rest) = some (es2, skipWs rest) :=
        ih es2 ind rest f (by omega) hwfl2 (by omega) hrest
      rw [serializeL]
      rw [show (('\n' :: indentChars ind) ++ serializeE (Elem.mk t x cs) ind ++ serializeL es2 ind) ++ rest
          = ('\n' :: indentChars ind) ++ (serializeE (Elem.mk t x cs) ind ++ (serializeL es2 ind ++ rest)) by
        simp [List.append_assoc]]
      rw [parseNodes_leading_ws (f+1) hW]
      cases cs with
      | nil =>
        cases hxd : x.data with
        | nil =>
          have hx : x = "" := string_eq_empty_of_data hxd
          subst hx
          rw [show serializeE (Elem.mk t "" []) ind ++ (serializeL es2 ind ++ rest)
              = '<' :: (t.data ++ '/' :: '>' :: (serializeL es2 ind ++ rest)) by
            rw [serializeE]
            simp]
          rw [parseNodes_step_selfclose f htname htne _ hcont, stringMkData]
        | cons d ds =>
          rw [show serializeE (Elem.mk t x []) ind ++ (serializeL es2 ind ++ rest)
              = '<' :: (t.data ++ '>' :: (x.data ++ '<' :: '/' :: (t.data ++ '>' :: (serializeL es2 ind ++ rest)))) by
            rw [serializeE]
            rw [if_neg (by rw [hxd]; simp)]
            simp [List.append_assoc]]
          rw [parseNodes_step_textleaf f htname htne hxsafe _ hcont, stringMkData, stringMkData]
      | cons c1 cs2 =>
        have hxd : x.data = [] := by
          rcases hmix with h | h
          · exact h
          · exact absurd h (by simp)
        have hx : x = "" := string_eq_empty_of_data hxd
        subst hx
        have hc1wf : wfE c1 = true := (wfL_iff (c1 :: cs2)).mp hwfcs c1 (by simp)
        obtain ⟨t1, x1, k1⟩ := c1
        obtain ⟨ht1ne, ht1name, -, -, -⟩ := wfE_parts hc1wf
        obtain ⟨m0, mtl, ht1⟩ : ∃ m0 mtl, t1.data = m0 :: mtl := by
          cases ht1d : t1.data with
          | nil => exact absurd ht1d ht1ne
          | cons a b => exact ⟨a, b, rfl⟩
        have hm0 : isNameChar m0 = true := ht1name m0 (by rw [ht1]; simp)
        obtain ⟨rr, hshape⟩ := serializeE_shape t1 x1 k1 (ind+1)
        have hsep : ∀ c ∈ ('\n' :: indentChars (ind+1)), isWsChar c = true := by
          intro c hc
          rcases List.mem_cons.mp hc with h | h
          · rw [h]; decide
          · exact indentChars_ws c h
        have hskipCLOSE : skipWs ('\n' :: (indentChars ind ++ '<' :: '/' :: (t.data ++ '>' :: (serializeL es2 ind ++ rest))))
            = '<' :: '/' :: (t.data ++ '>' :: (serializeL es2 ind ++ rest)) := by
          rw [show ('\n' :: (indentChars ind ++ '<' :: '/' :: (t.data ++ '>' :: (serializeL es2 ind ++ rest))))
              = ('\n' :: indentChars ind) ++ ('<' :: '/' :: (t.data ++ '>' :: (serializeL es2 ind ++ rest))) by simp]
          rw [skipWs_ws_append hW, skipWs_not_ws (by decide)]
        have hblock : parseNodes f (serializeL (Elem.mk t1 x1 k1 :: cs2) (ind+1) ++
            ('\n' :: (indentChars ind ++ '<' :: '/' :: (t.data ++ '>' :: (serializeL es2 ind ++ rest)))))
            = some (Elem.mk t1 x1 k1 :: cs2, '<' :: '/' :: (t.data ++ '>' :: (serializeL es2 ind ++ rest))) := by
          rw [ih (Elem.mk t1 x1 k1 :: cs2) (ind+1) _ f (by omega) hwfcs (by omega)
            (Or.inr ⟨_, hskipCLOSE⟩)]
          rw [hskipCLOSE]
        have hbody : parseNodes f ('<' :: m0 :: ((mtl ++ rr) ++ (serializeL cs2 (ind+1) ++
            ('\n' :: (indentChars ind ++ '<' :: '/' :: (t.data ++ '>' :: (serializeL es2 ind ++ rest)))))))
            = some (Elem.mk t1 x1 k1 :: cs2, '<' :: '/' :: (t.data ++ '>' :: (serializeL es2 ind ++ rest))) := by
          have heq : serializeL (Elem.mk t1 x1 k1 :: cs2) (ind+1) ++
              ('\n' :: (indentChars ind ++ '<' :: '/' :: (t.data ++ '>' :: (serializeL es2 ind ++ rest))))
              = ('\n' :: indentChars (ind+1)) ++ ('<' :: m0 :: ((mtl ++ rr) ++ (serializeL cs2 (ind+1) ++
                ('\n' :: (indentChars ind ++ '<' :: '/' :: (t.data ++ '>' :: (serializeL es2 ind ++ rest))))))) := by
            rw [serializeL, hshape, ht1]
            simp [List.append_assoc]
          rw [heq, parseNodes_leading_ws f hsep] at hblock
          exact hblock
        have hmid : skipWs ('<' :: '/' :: (t.data ++ '>' :: (serializeL es2 ind ++ rest)))
            = '<' :: '/' :: (t.data ++ '>' :: (serializeL es2 ind ++ rest)) :=
          skipWs_not_ws (by decide) _
        rw [show serializeE (Elem.mk t "" (Elem.mk t1 x1 k1 :: cs2)) ind ++ (serializeL es2 ind ++ rest)
            = '<' :: (t.data ++ '>' :: (('\n' :: indentChars (ind+1)) ++ '<' :: m0 :: ((mtl ++ rr) ++ (serializeL cs2 (ind+1) ++
              ('\n' :: (indentChars ind ++ '<' :: '/' :: (t.data ++ '>' :: (serializeL es2 ind ++ rest)))))))) by
          rw [serializeE, serializeL, hshape, ht1]
          simp [List.append_assoc]]
        rw [parseNodes_step_node f htname htne hsep hm0 hbody hmid hcont, stringMkData]

theorem sizeL_le_length (cs : List Elem)
    (H : ∀ c ∈ cs, ∀ ind, sizeE c ≤ (serializeE c ind).length) :
    ∀ ind, sizeL cs ≤ (serializeL cs ind).length := by
  induction cs with
  | nil => intro ind; simp [sizeL, serializeL]
  | cons c l ih =>
    intro ind
    rw [sizeL, serializeL]
    simp only [List.length_append, List.length_cons]
    have h1 := H c (by simp) ind
    have h2 := ih (fun d hd => H d (by simp [hd])) ind
    omega

theorem sizeE_le_length : ∀ e : Elem, ∀ ind, sizeE e ≤ (serializeE e ind).length := by
  intro e
  induction e using elemInd with
  | _ t x cs ih =>
    intro ind
    cases cs with
    | nil =>
      by_cases hx : x.data = []
      · rw [serializeE, if_pos hx, sizeE]
        simp only [sizeL, List.length_cons, List.length_append]
        omega
      · rw [serializeE, if_neg hx, sizeE]
        simp only [sizeL, List.length_cons, List.length_append]
        omega
    | cons c1 cs2 =>
      rw [serializeE, sizeE]
      have h2 := sizeL_le_length (c1 :: cs2) ih (ind+1)
      simp only [List.length_cons, List.length_append]
      omega

theorem fromstring_tostring : ∀ e : Elem, wfE e = true → fromstring (tostring e) = some e := by
  intro e hwf
  have hwl : wfL [e] = true := by
    rw [wfL, hwf, wfL]
    rfl
  have hfuel : sizeL [e] + 1 ≤ (tostring e).length + 2 := by
    have h1 := sizeE_le_length e 0
    rw [sizeL, sizeL, tostring]
    simp only [List.length_append, List.length_cons, List.length_nil]
    omega
  have h := parseNodes_serializeL (sizeL [e]) [e] 0 ['\n'] ((tostring e).length + 2)
    le_rfl hwl hfuel (Or.inl rfl)
  have heq : serializeL [e] 0 ++ ['\n'] = ['\n'] ++ tostring e := by
    rw [serializeL, serializeL, tostring]
    simp [indentChars]
  rw [heq, parseNodes_leading_ws _ (by intro c hc; simp at hc; rw [hc]; decide)] at h
  rw [fromstring]
  rw [h]
  rfl

theorem notQm_of_nameChar {c : Char} (h : isNameChar c = true) : notQmChar c = true := by
  cases hq : (c == '?') with
  | false => rw [notQmChar, hq]; rfl
  | true =>
    have hc : c = '?' := eq_of_beq hq
    subst hc
    exact absurd h (by decide)

theorem indentChars_no_qm : ∀ c ∈ indentChars n, notQmChar c = true := by
  intro c hc
  rw [indentChars, List.mem_replicate] at hc
  rw [hc.2]
  decide

theorem serializeL_no_qm (cs : List Elem)
    (H : ∀ c ∈ cs, ∀ ind, (serializeE c ind).all notQmChar = true) :
    ∀ ind, (serializeL cs ind).all notQmChar = true := by
  induction cs with
  | nil => intro ind; rfl
  | cons c l ih =>
    intro ind
    rw [serializeL]
    have hAll : (indentChars ind).all notQmChar = true :=
      List.all_eq_true.mpr (fun d hd => indentChars_no_qm d hd)
    simp [List.all_append, List.all_cons, hAll, H c (by simp) ind,
      ih (fun d hd => H d (by simp [hd])) ind, (by decide : notQmChar '\n' = true)]

theorem serializeE_no_qm :
    ∀ e : Elem, wfE e = true → noQmE e = true → ∀ ind, (serializeE e ind).all notQmChar = true := by
  intro e
  induction e using elemInd with
  | _ t x cs ih =>
    intro hwf hq ind
    obtain ⟨-, htname, -, -, hwfcs⟩ := wfE_parts hwf
    rw [noQmE, Bool.and_eq_true] at hq
    obtain ⟨hqx, hqcs⟩ := hq
    have htq : t.data.all notQmChar = true :=
      List.all_eq_true.mpr (fun c hc => notQm_of_nameChar (htname c hc))
    have hAll : (indentChars ind).all notQmChar = true := List.all_eq_true.mpr indentChars_no_qm
    have hc1 : notQmChar '<' = true := by decide
    have hc2 : notQmChar '>' = true := by decide
    have hc3 : notQmChar '/' = true := by decide
    have hc4 : notQmChar '\n' = true := by decide
    cases cs with
    | nil =>
      by_cases hx : x.data = []
      · rw [serializeE, if_pos hx]
        simp [List.all_cons, List.all_append, htq, hc1, hc2, hc3]
      · rw [serializeE, if_neg hx]
        simp [List.all_cons, List.all_append, htq, hqx, hc1, hc2, hc3]
    | cons c1 cs2 =>
      have hser := serializeL_no_qm (c1 :: cs2)
        (fun c hc => ih c hc ((wfL_iff (c1 :: cs2)).mp hwfcs c hc)
          ((noQmL_iff (c1 :: cs2)).mp hqcs c hc)) (ind+1)
      rw [serializeE]
      simp [List.all_cons, List.all_append, htq, hser, hAll, hc1, hc2, hc3, hc4]

theorem tostring_no_qm {e : Elem} (hwf : wfE e = true) (hq : noQmE e = true) :
    (tostring e).all notQmChar = true := by
  rw [tostring]
  simp only [List.all_append, List.all_cons, Bool.and_eq_true]
  exact ⟨serializeE_no_qm e hwf hq 0, by decide⟩

/-! ## Builder lemmas -/

theorem make_elements_ok {required : List String} {args : List Elem}
    {kwargs : List (String × FieldValue)}
    (h : ∀ k ∈ required, fieldPresent args kwargs k = true) :
    make_elements required args kwargs = .ok (args ++ kwargs.map kwargElem) := by
  rw [make_elements]
  have hfind : required.find? (fun k => !fieldPresent args kwargs k) = none := by
    rw [List.find?_eq_none]
    intro k hk
    rw [h k hk]
    decide
  rw [hfind]

theorem make_elements_err {required : List String} {args : List Elem}
    {kwargs : List (String × FieldValue)} {k : String}
    (h : required.find? (fun r => !fieldPresent args kwargs r) = some k) :
    make_elements required args kwargs = .error (.missingRequiredField k) := by
  rw [make_elements, h]

/-- With no `LabelSpecification` keyword, `shipment_confirm_request_type`
checks the required fields and attaches the default GIF label
specification. -/
theorem shipment_confirm_default_label (args : List Elem)
    (kwargs : List (String × FieldValue))
    (hLS : kwargs.lookup "LabelSpecification" = none) :
    shipment_confirm_request_type args kwargs =
      match make_elements confirmRequired args kwargs with
      | .error err => .error err
      | .ok elements => .ok (Elem.mk "ShipmentConfirmRequest" "" [
          Elem.mk "Request" "" [ShipmentConfirm.RequestAction, ShipmentConfirm.RequestOption,
            ShipmentConfirm.TransactionReference],
          Elem.mk "Shipment" "" elements,
          Elem.mk "LabelSpecification" "" [Elem.mk "LabelPrintMethod" "" [Elem.mk "Code" "GIF" []],
            Elem.mk "LabelImageFormat" "" [Elem.mk "Code" "GIF" []]]]) := by
  rw [shipment_confirm_request_type, hLS]
  rfl

theorem filter_kwargElem_none (k : String) :
    ∀ kwargs : List (String × FieldValue), (∀ kv ∈ kwargs, ∃ s, kv.2 = FieldValue.str s) →
      (∀ kv ∈ kwargs, ¬(kv.1 = k)) →
      (kwargs.map kwargElem).filter (fun e => e.tag == k) = [] := by
  intro kwargs
  induction kwargs with
  | nil => intro _ _; rfl
  | cons kv rest ih =>
    intro hstr hk
    obtain ⟨k1, v1⟩ := kv
    obtain ⟨s, hs⟩ := hstr (k1, v1) (by simp)
    simp only at hs
    subst hs
    have hne : ¬(k1 = k) := hk (k1, FieldValue.str s) (by simp)
    have hbeq : (k1 == k) = false := beq_eq_false_iff_ne.mpr hne
    simp only [List.map_cons, List.filter_cons, kwargElem, Elem.tag_mk, hbeq]
    exact ih (fun kv hkv => hstr kv (by simp [hkv])) (fun kv hkv => hk kv (by simp [hkv]))

theorem filter_kwargElem_lookup (k : String) :
    ∀ kwargs : List (String × FieldValue), (∀ kv ∈ kwargs, ∃ s, kv.2 = FieldValue.str s) →
      (kwargs.map Prod.fst).Nodup →
      (kwargs.map kwargElem).filter (fun e => e.tag == k) =
        (match kwargs.lookup k with
         | some (FieldValue.str v) => [Elem.mk k v []]
         | some (FieldValue.el _) => []
         | none => []) := by
  intro kwargs
  induction kwargs with
  | nil => intro _ _; rfl
  | cons kv rest ih =>
    intro hstr hnd
    obtain ⟨k1, v1⟩ := kv
    obtain ⟨s, hs⟩ := hstr (k1, v1) (by simp)
    simp only at hs
    subst hs
    rw [List.map_cons, List.nodup_cons] at hnd
    obtain ⟨hk1, hndrest⟩ := hnd
    cases hbeq : (k1 == k) with
    | true =>
      have hkk : k1 = k := eq_of_beq hbeq
      subst hkk
      have hrest : (rest.map kwargElem).filter (fun e => e.tag == k1) = [] := by
        apply filter_kwargElem_none k1 rest (fun kv hkv => hstr kv (by simp [hkv]))
        intro kv hkv heq
        exact hk1 (List.mem_map.mpr ⟨kv, hkv, heq⟩)
      simp only [List.map_cons, List.filter_cons, kwargElem, Elem.tag_mk, hbeq, hrest,
        List.lookup]
      simp
    | false =>
      have hne : ¬(k = k1) := by
        intro h
        subst h
        simp at hbeq
      simp only [List.map_cons, List.filter_cons, kwargElem, Elem.tag_mk, hbeq]
      rw [List.lookup]
      rw [show (k == k1) = false from beq_eq_false_iff_ne.mpr hne]
      exact ih (fun kv hkv => hstr kv (by simp [hkv])) hndrest

theorem fieldPresent_cons {args : List Elem} {kwargs : List (String × FieldValue)}
    (kv : String × FieldValue) {k : String} (h : fieldPresent args kwargs k = true) :
    fieldPresent args (kv :: kwargs) k = true := by
  rw [fieldPresent] at h ⊢
  rw [List.any_cons]
  rcases Bool.or_eq_true_iff.mp h with h1 | h1
  · rw [h1]
    simp
  · rw [h1]
    simp

/-! ## Claims -/

/-- C1: for every builder with a non-empty required-field set
(`address_type` requires `AddressLine1` and `City`, `service_type`
requires `Code`, `shipment_confirm_request_type` requires `Shipper`,
`ShipTo`, `ShipFrom`, `Service` and `PaymentInformation`), calling the
builder with a required keyword omitted raises `MissingRequiredField`,
and the error names the missing field: whenever `k` is the first
required name that is neither a keyword nor a positional tag, the
builder returns `.error (.missingRequiredField k)`. -/
theorem claim1_missing_required (kwargs : List (String × FieldValue)) (k : String) :
    ((["AddressLine1", "City"].find? (fun r => !fieldPresent [] kwargs r) = some k) →
      address_type [] kwargs = .error (.missingRequiredField k)) ∧
    ((["Code"].find? (fun r => !fieldPresent [] kwargs r) = some k) →
      service_type [] kwargs = .error (.missingRequiredField k)) ∧
    (kwargs.lookup "LabelSpecification" = none →
      (confirmRequired.find? (fun r => !fieldPresent [] kwargs r) = some k) →
      shipment_confirm_request_type [] kwargs = .error (.missingRequiredField k)) := by
  refine ⟨?_, ?_, ?_⟩
  · intro h
    rw [address_type, make_elements_err h]
  · intro h
    rw [service_type, make_elements_err h]
  · intro hLS h
    rw [shipment_confirm_default_label [] kwargs hLS, make_elements_err h]

/-- Witness for C1: omitting `City`, `Code`, `Service` respectively. -/
theorem claim1_missing_required_witness :
    address_type [] [("AddressLine1", FieldValue.str "L1")] =
      .error (.missingRequiredField "City") ∧
    service_type [] [] = .error (.missingRequiredField "Code") ∧
    shipment_confirm_request_type [] [("Shipper", FieldValue.el (Elem.mk "Shipper" "" [])),
      ("ShipTo", FieldValue.el (Elem.mk "ShipTo" "" [])),
      ("ShipFrom", FieldValue.el (Elem.mk "ShipFrom" "" []))] =
      .error (.missingRequiredField "Service") :=
  ⟨(claim1_missing_required [("AddressLine1", FieldValue.str "L1")] "City").1 rfl,
   (claim1_missing_required [] "Code").2.1 rfl,
   (claim1_missing_required _ "Service").2.2 rfl rfl⟩

/-- C3: extracting the digest from a confirm response whose
`ShipmentDigest` element holds `s` returns exactly `s`, and the accept
request built from it carries exactly one `ShipmentDigest` child whose
text is `s`, unmodified. -/
theorem claim3_digest_passthrough (response : Elem) (s : String) (d : Elem)
    (hfind : response.children.find? (fun c => c.tag == "ShipmentDigest") = some d)
    (htext : d.text = s) :
    extract_digest response = some s ∧
    (shipment_accept_request_type s).children.filter (fun c => c.tag == "ShipmentDigest") =
      [Elem.mk "ShipmentDigest" s []] := by
  constructor
  · rw [extract_digest, hfind, Option.map_some', htext]
  · rw [shipment_accept_request_type]
    simp only [Elem.children_mk, List.filter_cons, Elem.tag_mk]
    rw [show (("Request" : String) == "ShipmentDigest") = false from by decide]
    simp

/-- Witness for C3: a canned confirm response holding `abc123`. -/
theorem claim3_digest_passthrough_witness :
    extract_digest (Elem.mk "ShipmentConfirmResponse" ""
      [Elem.mk "Response" "" [], Elem.mk "ShipmentDigest" "abc123" []]) = some "abc123" ∧
    (shipment_accept_request_type "abc123").children.filter
      (fun c => c.tag == "ShipmentDigest") = [Elem.mk "ShipmentDigest" "abc123" []] :=
  claim3_digest_passthrough
    (Elem.mk "ShipmentConfirmResponse" ""
      [Elem.mk "Response" "" [], Elem.mk "ShipmentDigest" "abc123" []])
    "abc123" (Elem.mk "ShipmentDigest" "abc123" []) rfl rfl

/-- C5: supplying both a `CountryCode` and a `StateProviceCode` makes
`address_type` succeed either way; a country outside the US/CA
allow-list emits the warning, `US`/`CA` emits none. -/
theorem claim5_state_province_warning (al ci sp cc : String) :
    (¬(cc = "US" ∨ cc = "CA") →
      address_type [] [("AddressLine1", FieldValue.str al), ("City", FieldValue.str ci),
        ("StateProviceCode", FieldValue.str sp), ("CountryCode", FieldValue.str cc)] =
        .ok ([stateProvinceWarning], Elem.mk "Address" ""
          [Elem.mk "AddressLine1" al [], Elem.mk "City" ci [],
           Elem.mk "StateProviceCode" sp [], Elem.mk "CountryCode" cc []])) ∧
    ((cc = "US" ∨ cc = "CA") →
      address_type [] [("AddressLine1", FieldValue.str al), ("City", FieldValue.str ci),
        ("StateProviceCode", FieldValue.str sp), ("CountryCode", FieldValue.str cc)] =
        .ok ([], Elem.mk "Address" ""
          [Elem.mk "AddressLine1" al [], Elem.mk "City" ci [],
           Elem.mk "StateProviceCode" sp [], Elem.mk "CountryCode" cc []])) := by
  have hpres : ∀ r ∈ ["AddressLine1", "City"],
      fieldPresent [] [("AddressLine1", FieldValue.str al), ("City", FieldValue.str ci),
        ("StateProviceCode", FieldValue.str sp), ("CountryCode", FieldValue.str cc)] r = true := by
    intro r hr
    simp only [List.mem_cons, List.not_mem_nil, or_false] at hr
    rcases hr with h | h <;> subst h <;> rfl
  have hred : address_type [] [("AddressLine1", FieldValue.str al), ("City", FieldValue.str ci),
      ("StateProviceCode", FieldValue.str sp), ("CountryCode", FieldValue.str cc)] =
      .ok ((if cc = "US" ∨ cc = "CA" then [] else [stateProvinceWarning]), Elem.mk "Address" ""
        [Elem.mk "AddressLine1" al [], Elem.mk "City" ci [],
         Elem.mk "StateProviceCode" sp [], Elem.mk "CountryCode" cc []]) := by
    rw [address_type, make_elements_ok hpres]
    rfl
  constructor
  · intro h
    rw [hred, if_neg h]
  · intro h
    rw [hred, if_pos h]

/-- Witness for C5: `CountryCode="DE"` warns, `CountryCode="US"` does
not. -/
theorem claim5_state_province_warning_witness :
    address_type [] [("AddressLine1", FieldValue.str "L1"), ("City", FieldValue.str "C"),
      ("StateProviceCode", FieldValue.str "X"), ("CountryCode", FieldValue.str "DE")] =
      .ok ([stateProvinceWarning], Elem.mk "Address" ""
        [Elem.mk "AddressLine1" "L1" [], Elem.mk "City" "C" [],
         Elem.mk "StateProviceCode" "X" [], Elem.mk "CountryCode" "DE" []]) ∧
    address_type [] [("AddressLine1", FieldValue.str "L1"), ("City", FieldValue.str "C"),
      ("StateProviceCode", FieldValue.str "X"), ("CountryCode", FieldValue.str "US")] =
      .ok ([], Elem.mk "Address" ""
        [Elem.mk "AddressLine1" "L1" [], Elem.mk "City" "C" [],
         Elem.mk "StateProviceCode" "X" [], Elem.mk "CountryCode" "US" []]) :=
  ⟨(claim5_state_province_warning "L1" "C" "X" "DE").1 (by decide),
   (claim5_state_province_warning "L1" "C" "X" "US").2 (Or.inl rfl)⟩

/-- C9: a keyword outside the documented field set never causes a
failure: `shipper_type` always succeeds, and adding any extra keyword
binding to a successful `address_type` call leaves it successful (the
unknown keyword is not rejected; it merely becomes one more child). -/
theorem claim9_unknown_kwargs_accepted (args : List Elem) (kwargs : List (String × FieldValue))
    (k : String) (v : FieldValue) :
    (∃ e, shipper_type args kwargs = .ok e) ∧
    ((∃ x, address_type args kwargs = .ok x) →
      ∃ y, address_type args ((k, v) :: kwargs) = .ok y) := by
  constructor
  · exact ⟨_, by rw [shipper_type, make_elements_ok (fun r hr => absurd hr (List.not_mem_nil r))]⟩
  · rintro ⟨x, hx⟩
    have hpres : ∀ r ∈ ["AddressLine1", "City"], fieldPresent args kwargs r = true := by
      intro r hr
      rw [address_type] at hx
      rw [make_elements] at hx
      cases hf : List.find? (fun r => !fieldPresent args kwargs r) ["AddressLine1", "City"] with
      | some m =>
        rw [hf] at hx
        exact absurd hx (by simp)
      | none =>
        have := List.find?_eq_none.mp hf r hr
        cases hb : fieldPresent args kwargs r with
        | true => rfl
        | false =>
          exfalso
          rw [hb] at this
          exact this rfl
    have hpres2 : ∀ r ∈ ["AddressLine1", "City"],
        fieldPresent args ((k, v) :: kwargs) r = true :=
      fun r hr => fieldPresent_cons (k, v) (hpres r hr)
    exact ⟨_, by rw [address_type, make_elements_ok hpres2]⟩

/-- Witness for C9: an unknown keyword `Bogus` is accepted by both
builders. -/
theorem claim9_unknown_kwargs_accepted_witness :
    (∃ e, shipper_type [] [("Bogus", FieldValue.str "z")] = .ok e) ∧
    (∃ y, address_type [] [("Bogus", FieldValue.str "z"),
      ("AddressLine1", FieldValue.str "L1"), ("City", FieldValue.str "C")] = .ok y) :=
  ⟨(claim9_unknown_kwargs_accepted [] [("Bogus", FieldValue.str "z")] "Bogus"
      (FieldValue.str "z")).1,
   (claim9_unknown_kwargs_accepted [] [("AddressLine1", FieldValue.str "L1"),
      ("City", FieldValue.str "C")] "Bogus" (FieldValue.str "z")).2 ⟨_, rfl⟩⟩

/-- C10: with no `LabelSpecification` keyword and the required fields
supplied, the `ShipmentConfirmRequest` has children `Request`,
`Shipment`, `LabelSpecification` in that order, and the default label
specification uses `GIF` for both the print method code and the image
format code. -/
theorem claim10_default_label_specification (kwargs : List (String × FieldValue))
    (hLS : kwargs.lookup "LabelSpecification" = none)
    (hreq : ∀ k ∈ confirmRequired, fieldPresent [] kwargs k = true) :
    shipment_confirm_request_type [] kwargs = .ok (Elem.mk "ShipmentConfirmRequest" "" [
      Elem.mk "Request" "" [ShipmentConfirm.RequestAction, ShipmentConfirm.RequestOption,
        ShipmentConfirm.TransactionReference],
      Elem.mk "Shipment" "" (kwargs.map kwargElem),
      Elem.mk "LabelSpecification" "" [Elem.mk "LabelPrintMethod" "" [Elem.mk "Code" "GIF" []],
        Elem.mk "LabelImageFormat" "" [Elem.mk "Code" "GIF" []]]]) := by
  rw [shipment_confirm_default_label [] kwargs hLS, make_elements_ok hreq]
  rfl

/-- Witness for C10: a minimal confirm request with the five required
elements. -/
theorem claim10_default_label_specification_witness :
    shipment_confirm_request_type [] [("Shipper", FieldValue.el (Elem.mk "Shipper" "" [])),
      ("ShipTo", FieldValue.el (Elem.mk "ShipTo" "" [])),
      ("ShipFrom", FieldValue.el (Elem.mk "ShipFrom" "" [])),
      ("Service", FieldValue.el (Elem.mk "Service" "" [])),
      ("PaymentInformation", FieldValue.el (Elem.mk "PaymentInformation" "" []))] =
      .ok (Elem.mk "ShipmentConfirmRequest" "" [
        Elem.mk "Request" "" [ShipmentConfirm.RequestAction, ShipmentConfirm.RequestOption,
          ShipmentConfirm.TransactionReference],
        Elem.mk "Shipment" "" [Elem.mk "Shipper" "" [], Elem.mk "ShipTo" "" [],
          Elem.mk "ShipFrom" "" [], Elem.mk "Service" "" [],
          Elem.mk "PaymentInformation" "" []],
        Elem.mk "LabelSpecification" "" [Elem.mk "LabelPrintMethod" "" [Elem.mk "Code" "GIF" []],
          Elem.mk "LabelImageFormat" "" [Elem.mk "Code" "GIF" []]]]) :=
  claim10_default_label_specification _ rfl (by decide)

/-- C2: an optional field supplied as a keyword with a string value
yields exactly one child with that tag and that text; an omitted field
yields no child with that tag (shown for `shipper_type` and
`address_type`, whose children come from the shared `make_elements`
path). -/
theorem claim2_optional_fields (kwargs : List (String × FieldValue)) (k : String)
    (hstr : ∀ kv ∈ kwargs, ∃ s, kv.2 = FieldValue.str s)
    (hnd : (kwargs.map Prod.fst).Nodup) :
    (∀ v, kwargs.lookup k = some (FieldValue.str v) →
      ∃ e, shipper_type [] kwargs = .ok e ∧
        e.children.filter (fun c => c.tag == k) = [Elem.mk k v []]) ∧
    (kwargs.lookup k = none →
      ∃ e, shipper_type [] kwargs = .ok e ∧
        e.children.filter (fun c => c.tag == k) = []) ∧
    (fieldPresent [] kwargs "AddressLine1" = true → fieldPresent [] kwargs "City" = true →
      (∀ v, kwargs.lookup k = some (FieldValue.str v) →
        ∃ w e, address_type [] kwargs = .ok (w, e) ∧
          e.children.filter (fun c => c.tag == k) = [Elem.mk k v []]) ∧
      (kwargs.lookup k = none →
        ∃ w e, address_type [] kwargs = .ok (w, e) ∧
          e.children.filter (fun c => c.tag == k) = [])) := by
  have hfilter := filter_kwargElem_lookup k kwargs hstr hnd
  have hship : shipper_type [] kwargs = .ok (Elem.mk "Shipper" "" (kwargs.map kwargElem)) := by
    rw [shipper_type, make_elements_ok (fun r hr => absurd hr (List.not_mem_nil r))]
    rfl
  refine ⟨?_, ?_, ?_⟩
  · intro v hv
    rw [hv] at hfilter
    exact ⟨_, hship, by rw [Elem.children_mk]; exact hfilter⟩
  · intro hv
    rw [hv] at hfilter
    exact ⟨_, hship, by rw [Elem.children_mk]; exact hfilter⟩
  · intro h1 h2
    have hpres : ∀ r ∈ ["AddressLine1", "City"], fieldPresent [] kwargs r = true := by
      intro r hr
      simp only [List.mem_cons, List.not_mem_nil, or_false] at hr
      rcases hr with h | h <;> subst h
      · exact h1
      · exact h2
    have haddr : ∃ w, address_type [] kwargs =
        .ok (w, Elem.mk "Address" "" (kwargs.map kwargElem)) := by
      rw [address_type, make_elements_ok hpres]
      exact ⟨_, rfl⟩
    obtain ⟨w0, hw0⟩ := haddr
    constructor
    · intro v hv
      rw [hv] at hfilter
      exact ⟨w0, _, hw0, by rw [Elem.children_mk]; exact hfilter⟩
    · intro hv
      rw [hv] at hfilter
      exact ⟨w0, _, hw0, by rw [Elem.children_mk]; exact hfilter⟩

/-- Witness for C2: `FaxNumber` supplied and `EMailAddress` omitted on a
shipper; `AddressLine2` supplied and `AddressLine3` omitted on an
address. -/
theorem claim2_optional_fields_witness :
    (∃ e, shipper_type [] [("FaxNumber", FieldValue.str "f")] = .ok e ∧
      e.children.filter (fun c => c.tag == "FaxNumber") = [Elem.mk "FaxNumber" "f" []]) ∧
    (∃ e, shipper_type [] [("FaxNumber", FieldValue.str "f")] = .ok e ∧
      e.children.filter (fun c => c.tag == "EMailAddress") = []) ∧
    (∃ w e, address_type [] [("AddressLine1", FieldValue.str "L1"),
        ("City", FieldValue.str "C"), ("AddressLine2", FieldValue.str "L2")] = .ok (w, e) ∧
      e.children.filter (fun c => c.tag == "AddressLine2") = [Elem.mk "AddressLine2" "L2" []]) ∧
    (∃ w e, address_type [] [("AddressLine1", FieldValue.str "L1"),
        ("City", FieldValue.str "C")] = .ok (w, e) ∧
      e.children.filter (fun c => c.tag == "AddressLine3") = []) :=
  ⟨(claim2_optional_fields [("FaxNumber", FieldValue.str "f")] "FaxNumber"
      (by simp) (by simp)).1 "f" rfl,
   (claim2_optional_fields [("FaxNumber", FieldValue.str "f")] "EMailAddress"
      (by simp) (by simp)).2.1 rfl,
   ((claim2_optional_fields [("AddressLine1", FieldValue.str "L1"), ("City", FieldValue.str "C"),
      ("AddressLine2", FieldValue.str "L2")] "AddressLine2"
      (by simp) (by simp)).2.2 rfl rfl).1 "L2" rfl,
   ((claim2_optional_fields [("AddressLine1", FieldValue.str "L1"), ("City", FieldValue.str "C")]
      "AddressLine3" (by simp) (by simp)).2.2 rfl rfl).2 rfl⟩

/-- C4: for each of the three clients, when the transport's bytes parse
into a response tree containing a carrier error node, `request` raises
`CarrierError` carrying the original request text and the response. -/
theorem claim4_carrier_error (c : Client) (doc resp : Elem) :
    (fromstring (c.send_request (ShipmentConfirm.url c)
        (mkFullRequest c.access_request doc)) = some resp →
      containsErrorE resp = true →
      ShipmentConfirm.request c doc =
        .error (.carrierError (mkFullRequest c.access_request doc) resp)) ∧
    (fromstring (c.send_request (ShipmentAccept.url c)
        (mkFullRequest c.access_request doc)) = some resp →
      containsErrorE resp = true →
      ShipmentAccept.request c doc =
        .error (.carrierError (mkFullRequest c.access_request doc) resp)) ∧
    (fromstring (c.send_request (ShipmentVoid.url c)
        (mkFullRequest c.access_request doc)) = some resp →
      containsErrorE resp = true →
      ShipmentVoid.request c doc =
        .error (.carrierError (mkFullRequest c.access_request doc) resp)) := by
  refine ⟨?_, ?_, ?_⟩ <;> intro hparse herr
  · simp only [ShipmentConfirm.request, requestBody]
    rw [hparse]
    simp [look_for_error, herr]
  · simp only [ShipmentAccept.request, requestBody]
    rw [hparse]
    simp [look_for_error, herr]
  · simp only [ShipmentVoid.request, requestBody]
    rw [hparse]
    simp [look_for_error, herr]

/-- Witness for C4: a transport returning a canned error response makes
`ShipmentConfirm.request` raise `CarrierError` with the request text. -/
theorem claim4_carrier_error_witness :
    ShipmentConfirm.request
      { access_request := Elem.mk "AccessRequest" "" [], sandbox := true, return_xml := false,
        send_request := fun _ _ =>
          "<R><Response><Error><ErrorCode>1</ErrorCode></Error></Response></R>".data }
      (Elem.mk "Doc" "" []) =
      .error (.carrierError
        (mkFullRequest (Elem.mk "AccessRequest" "" []) (Elem.mk "Doc" "" []))
        (Elem.mk "R" ""
          [Elem.mk "Response" "" [Elem.mk "Error" "" [Elem.mk "ErrorCode" "1" []]]])) :=
  (claim4_carrier_error _ _ _).1 rfl rfl

/-- C6: serializing a well-formed request tree with the pretty-printing
serializer used by `request` (`tostring`) and re-parsing the text with
the parser used on responses (`fromstring`) returns the very same tree
— same child set, tags and text values. -/
theorem claim6_roundtrip : ∀ e : Elem, wfE e = true → fromstring (tostring e) = some e :=
  fun e hwf => fromstring_tostring e hwf

/-- Witness for C6: a builder-produced accept request round-trips. -/
theorem claim6_roundtrip_witness :
    wfE (shipment_accept_request_type "abc123") = true ∧
    fromstring (tostring (shipment_accept_request_type "abc123")) =
      some (shipment_accept_request_type "abc123") :=
  ⟨rfl, claim6_roundtrip _ rfl⟩

/-- C7: the payload handed to the transport is exactly two XML documents
— the serialized access credentials document, then the serialized
business document — each preceded by its own XML declaration; both
parts parse back to the original trees and contain no `?` at all, so
no further declaration can occur inside them. -/
theorem claim7_two_document_payload (access doc : Elem)
    (hwa : wfE access = true) (hwd : wfE doc = true)
    (hqa : noQmE access = true) (hqd : noQmE doc = true) :
    ∃ d1 d2,
      mkFullRequest access doc = xmlDecl ++ '\n' :: (d1 ++ '\n' :: (xmlDecl ++ '\n' :: d2)) ∧
      fromstring d1 = some access ∧ fromstring d2 = some doc ∧
      d1.all notQmChar = true ∧ d2.all notQmChar = true :=
  ⟨tostring access, tostring doc, rfl, fromstring_tostring access hwa,
    fromstring_tostring doc hwd, tostring_no_qm hwa hqa, tostring_no_qm hwd hqd⟩

/-- Witness for C7: a concrete credentials document and accept request. -/
theorem claim7_two_document_payload_witness :
    ∃ d1 d2, mkFullRequest
      (Elem.mk "AccessRequest" "" [Elem.mk "AccessLicenseNumber" "key" []])
      (shipment_accept_request_type "abc") =
        xmlDecl ++ '\n' :: (d1 ++ '\n' :: (xmlDecl ++ '\n' :: d2)) ∧
      fromstring d1 =
        some (Elem.mk "AccessRequest" "" [Elem.mk "AccessLicenseNumber" "key" []]) ∧
      fromstring d2 = some (shipment_accept_request_type "abc") ∧
      d1.all notQmChar = true ∧ d2.all notQmChar = true :=
  claim7_two_document_payload _ _ rfl rfl rfl rfl

/-- C8 (code bug): the class-level template elements are NOT read-only.
In the element-identity model of two successive
`shipment_accept_request_type` calls: after the first call the
templates (ids 0, 1, 3) are the children of the first call's `Request`
node (id 4); the second call appends them to its own `Request` node
(id 7), which in lxml MOVES them — their parent changes and the first
call's `Request` element is left with no children at all, so the first
document no longer contains the templates. -/
theorem claim8_templates_reparented :
    (accept_request_heap acceptStore0 "digest-1").2.2 = 4 ∧
    (accept_request_heap (accept_request_heap acceptStore0 "digest-1").1 "digest-2").2.2 = 7 ∧
    nodeParent (accept_request_heap acceptStore0 "digest-1").1 acceptRequestActionId =
      some (some 4) ∧
    nodeChildIds (accept_request_heap acceptStore0 "digest-1").1 4 = some [0, 1, 3] ∧
    nodeParent (accept_request_heap (accept_request_heap acceptStore0 "digest-1").1
      "digest-2").1 acceptRequestActionId = some (some 7) ∧
    nodeChildIds (accept_request_heap (accept_request_heap acceptStore0 "digest-1").1
      "digest-2").1 4 = some [] := by
  refine ⟨rfl, rfl, rfl, rfl, rfl, rfl⟩
